import Mathlib

/-!
Verification of the `nextera_utils` utility library (Rust) against its
natural-language specification.

The development shallowly embeds the library's modules:

* `src/jwt/mod.rs` — token issuance (`generate_jwt`), validation
  (`validate_jwt`), and unverified claim extraction
  (`get_user_id_from_token`, `get_jwt_claims_from_token`,
  `normalize_base64`);
* `src/password/mod.rs` — password hashing/verification
  (`Password.hash_password`, `Password.verify_password`) and
  `generate_strong_password`;
* `src/time/mod.rs` — `Time.convert_timezone` and the static supported
  offset table.

Rust `String`/`&str` values that the code manipulates character by
character are embedded as `List Char` (the code only ever slices them at
ASCII positions, where Rust's byte indices and character indices agree).
Timestamps (`chrono::NaiveDateTime`) are embedded as `Int` seconds since
the epoch.  Randomness (`OsRng` / `thread_rng`) is embedded as an explicit
oracle parameter: a stream `Nat → Nat` of draws, or a caller-supplied salt.
A Rust panicking abort is embedded as the `none` value of an outer
`Option` layer, so `some (Except ...)` is "the function returned" and
`none` is "the function aborted the process".

External cryptographic primitives (HMAC-SHA-256 inside the `jsonwebtoken`
crate, the Argon2 and bcrypt digest computations) are embedded as *ideal*
primitives: a MAC tag or digest is represented by an injective function of
exactly the inputs the real primitive hashes.  All other behaviour of the
external crates (parsing, padding, validation order, error cases) is
embedded faithfully.
-/

/-! ## Generic character-list helpers -/

/-- Rust's `str::split(sep)` on a character list: splits on every occurrence
of `sep`; the result is never empty, and empty fields are kept (so
`split '.' "a..b" = ["a", "", "b"]` and `split '.' "" = [""]`). -/
def splitSep (sep : Char) : List Char → List (List Char)
  | [] => [[]]
  | c :: rest =>
    if c = sep then [] :: splitSep sep rest
    else
      match splitSep sep rest with
      | [] => [[c]]
      | p :: ps => (c :: p) :: ps

/-! ## JWT module: structural model of the `jsonwebtoken` codec

`generate_jwt` and `validate_jwt` delegate the wire format to the
`jsonwebtoken` crate.  That codec is embedded structurally: an encoded
token is a record of the header, the claims carried by the payload
segment and the signature; the HMAC-SHA-256 signature is ideal — the tag
is the triple of inputs that the real HMAC is computed over, so two tags
are equal exactly when secret, header and serialized claims all agree. -/

/-- Signing algorithms; `Header::default()` uses HS256 and
`Validation::default()` accepts exactly HS256. -/
inductive Alg where
  | HS256
deriving DecidableEq, Repr

/-- Model of `jsonwebtoken::Header`. -/
structure Header where
  typ : Option String
  alg : Alg
deriving DecidableEq, Repr

/-- `jsonwebtoken::Header::default()`: `typ = Some("JWT")`, `alg = HS256`. -/
def Header.default : Header := ⟨some "JWT", Alg.HS256⟩

/-- The `Claims` struct of `src/jwt/mod.rs`: subject (user id, `i32`),
organization id (`i32`), expiration timestamp (`usize`), session uuid and
audience strings. -/
structure Claims where
  sub : Int
  org : Int
  exp : Nat
  suid : String
  aud : String
deriving DecidableEq, Repr

/-- Ideal HMAC-SHA-256 tag: the tag of a signing operation is represented
by the exact inputs hashed (secret key, header, serialized claims), so tag
equality coincides with input equality (an ideal, collision-free MAC). -/
structure MacTag where
  secret : String
  header : Header
  claims : Claims
deriving DecidableEq, Repr

/-- An encoded compact token as produced by `jsonwebtoken::encode`. -/
structure EncToken where
  header : Header
  claims : Claims
  sig : MacTag
deriving DecidableEq, Repr

/-- `jsonwebtoken::encode`: serialize header and claims and sign with the
secret. -/
def encodeJwt (h : Header) (c : Claims) (secret : String) : EncToken :=
  ⟨h, c, ⟨secret, h, c⟩⟩

/-- The fields of `jsonwebtoken::Validation` exercised by this library. -/
structure Validation where
  algorithms : List Alg
  leeway : Nat
  validate_exp : Bool
  aud : Option (List String)
deriving DecidableEq, Repr

/-- `jsonwebtoken::Validation::default()`: HS256 only, 60 seconds of
leeway, expiry checked, no audience restriction until one is set. -/
def Validation.default : Validation := ⟨[Alg.HS256], 60, true, none⟩

/-- `Validation::set_audience(&[aud])`. -/
def Validation.setAudience (v : Validation) (auds : List String) : Validation :=
  { v with aud := some auds }

/-- The `jsonwebtoken` error kinds reachable through this library's calls. -/
inductive JwtErrorKind where
  | InvalidAlgorithm
  | InvalidSignature
  | ExpiredSignature
  | InvalidAudience
deriving DecidableEq, Repr

/-- `jsonwebtoken::TokenData`. -/
structure TokenData (α : Type) where
  header : Header
  claims : α
deriving DecidableEq, Repr

/-- `jsonwebtoken::decode::<Claims>` at validation time `now` (seconds,
`u64`): check the header algorithm is accepted, verify the signature
against `secret`, then validate the claims — expiry first (a token is
expired when `exp < now - leeway`, with saturating subtraction), then the
audience (the `aud` claim must be one of the expected audiences). -/
def decodeJwt (t : EncToken) (secret : String) (v : Validation) (now : Nat) :
    Except JwtErrorKind (TokenData Claims) :=
  if t.header.alg ∉ v.algorithms then
    .error JwtErrorKind.InvalidAlgorithm
  else if t.sig ≠ (⟨secret, t.header, t.claims⟩ : MacTag) then
    .error JwtErrorKind.InvalidSignature
  else if v.validate_exp ∧ t.claims.exp < now - v.leeway then
    .error JwtErrorKind.ExpiredSignature
  else
    match v.aud with
    | some auds =>
      if t.claims.aud ∈ auds then .ok ⟨t.header, t.claims⟩
      else .error JwtErrorKind.InvalidAudience
    | none => .ok ⟨t.header, t.claims⟩

/-- `validate_jwt` from `src/jwt/mod.rs`: decode with the default
validation restricted to the single expected audience.  `now` is the
validation-time clock reading that `jsonwebtoken` obtains internally. -/
def validate_jwt (token : EncToken) (secret : String) (audience : String)
    (now : Nat) : Except JwtErrorKind (TokenData Claims) :=
  decodeJwt token secret (Validation.default.setAudience [audience]) now

/-- Timestamp of `chrono::NaiveDateTime::MAX` (seconds); additions past it
make `checked_add_signed` return `None`. -/
def chronoMaxTs : Int := 8210266876799

/-- Timestamp of `chrono::NaiveDateTime::MIN` (seconds). -/
def chronoMinTs : Int := -8334601228800

/-- `generate_jwt` from `src/jwt/mod.rs`.  `now` is the `Time::get_utc()`
clock reading (seconds).  The expiry instant is `now + expires_in_sec`,
computed with `checked_add_signed` (out of the `NaiveDateTime` range the
`.expect` call aborts: outer `none`); its timestamp is cast `as usize`
(wrapping modulo `2^64` when negative).  Encoding always succeeds, so the
returned `Result` is always `Ok` of the token and the expiry instant. -/
def generate_jwt (user_id : Int) (org_id : Int) (secret : String)
    (expires_in_sec : Int) (session_uuid : String) (audience : String)
    (now : Int) : Option (Except String (EncToken × Int)) :=
  let expire_datetime := now + expires_in_sec
  if expire_datetime < chronoMinTs ∨ chronoMaxTs < expire_datetime then
    none
  else
    let expire_timestamp : Nat := (expire_datetime % (2 ^ 64 : Int)).toNat
    let claims : Claims :=
      ⟨user_id, org_id, expire_timestamp, session_uuid, audience⟩
    some (.ok (encodeJwt Header.default claims secret, expire_datetime))

/-- Issue a token and immediately validate it with the same secret and the
given audience, at the same clock reading; `none` when issuance did not
return a token. -/
def issueThenValidate (user_id org_id : Int) (secret : String) (ttl : Int)
    (session_uuid audience validateAudience : String) (now : Int) :
    Option (Except JwtErrorKind (TokenData Claims)) :=
  match generate_jwt user_id org_id secret ttl session_uuid audience now with
  | some (.ok (tok, _)) => some (validate_jwt tok secret validateAudience now.toNat)
  | _ => none

/-! ## JWT module: string-level payload extraction

`get_user_id_from_token` and `get_jwt_claims_from_token` never touch the
signature: they split the compact token on `.`, re-pad and base64url-decode
the middle segment, decode it as UTF-8 and deserialize the claims JSON.
The base64 engine (`base64::engine::general_purpose::URL_SAFE`), Rust's
`String::from_utf8` and `serde_json::from_str::<Claims>` are embedded
below as executable functions. -/

/-- `normalize_base64` from `src/jwt/mod.rs`: append `'='` until the
length is a multiple of four. -/
def normalize_base64 (input : List Char) : List Char :=
  if input.length % 4 = 0 then input
  else normalize_base64 (input ++ ['='])
termination_by (4 - input.length % 4) % 4
decreasing_by simp [List.length_append]; omega

/-- Value of a base64url alphabet character (`A`–`Z`, `a`–`z`, `0`–`9`,
`-`, `_`); `none` for anything else, including the padding `'='`. -/
def b64Val (c : Char) : Option Nat :=
  if 'A' ≤ c ∧ c ≤ 'Z' then some (c.toNat - 65)
  else if 'a' ≤ c ∧ c ≤ 'z' then some (c.toNat - 97 + 26)
  else if '0' ≤ c ∧ c ≤ '9' then some (c.toNat - 48 + 52)
  else if c = '-' then some 62
  else if c = '_' then some 63
  else none

/-- Base64url decoding with mandatory canonical padding, as performed by
`general_purpose::URL_SAFE.decode`: the input length must be a multiple of
four, `'='` may appear only at the end of the final quantum, and non-zero
trailing bits are rejected. -/
def b64Decode : List Char → Option (List Nat)
  | [] => some []
  | c1 :: c2 :: c3 :: c4 :: rest => do
    let v1 ← b64Val c1
    let v2 ← b64Val c2
    if c3 = '=' then
      if c4 = '=' ∧ rest = [] ∧ v2 % 16 = 0 then
        some [v1 * 4 + v2 / 16]
      else none
    else do
      let v3 ← b64Val c3
      if c4 = '=' then
        if rest = [] ∧ v3 % 4 = 0 then
          some [v1 * 4 + v2 / 16, (v2 % 16) * 16 + v3 / 4]
        else none
      else do
        let v4 ← b64Val c4
        let tail ← b64Decode rest
        some ([v1 * 4 + v2 / 16, (v2 % 16) * 16 + v3 / 4, (v3 % 4) * 64 + v4] ++ tail)
  | _ => none

/-- Whether a byte is a UTF-8 continuation byte (`10xxxxxx`). -/
def isCont (b : Nat) : Bool := 128 ≤ b ∧ b ≤ 191

/-- UTF-8 decoding as performed by Rust's `String::from_utf8`: rejects
overlong encodings, surrogate code points and out-of-range sequences. -/
def utf8Decode : List Nat → Option (List Char)
  | [] => some []
  | b1 :: rest =>
    if b1 < 128 then
      (utf8Decode rest).map (fun cs => Char.ofNat b1 :: cs)
    else if 194 ≤ b1 ∧ b1 ≤ 223 then
      match rest with
      | b2 :: rest2 =>
        if isCont b2 then
          (utf8Decode rest2).map (fun cs => Char.ofNat ((b1 - 192) * 64 + (b2 - 128)) :: cs)
        else none
      | _ => none
    else if 224 ≤ b1 ∧ b1 ≤ 239 then
      match rest with
      | b2 :: b3 :: rest3 =>
        let lo2 : Nat := if b1 = 224 then 160 else 128
        let hi2 : Nat := if b1 = 237 then 159 else 191
        if (lo2 ≤ b2 ∧ b2 ≤ hi2) ∧ isCont b3 then
          (utf8Decode rest3).map
            (fun cs => Char.ofNat ((b1 - 224) * 4096 + (b2 - 128) * 64 + (b3 - 128)) :: cs)
        else none
      | _ => none
    else if 240 ≤ b1 ∧ b1 ≤ 244 then
      match rest with
      | b2 :: b3 :: b4 :: rest4 =>
        let lo2 : Nat := if b1 = 240 then 144 else 128
        let hi2 : Nat := if b1 = 244 then 143 else 191
        if (lo2 ≤ b2 ∧ b2 ≤ hi2) ∧ isCont b3 ∧ isCont b4 then
          (utf8Decode rest4).map
            (fun cs =>
              Char.ofNat ((b1 - 240) * 262144 + (b2 - 128) * 4096 + (b3 - 128) * 64 + (b4 - 128)) :: cs)
        else none
      | _ => none
    else none

/-- JSON values, as lexed by `serde_json`.  A number records whether it was
written as an integer (no fraction or exponent part) together with its
integral value; non-integer numbers never deserialize into the integer
fields of `Claims`, so their numeric value is irrelevant and 0 is stored. -/
inductive Json where
  | jnull
  | jbool (b : Bool)
  | jnum (isInt : Bool) (v : Int)
  | jstr (s : List Char)
  | jarr (elems : List Json)
  | jobj (fields : List (List Char × Json))

/-- JSON whitespace skipping (space, tab, line feed, carriage return). -/
def skipWs (cs : List Char) : List Char :=
  cs.dropWhile (fun c => c = ' ' || c = '\t' || c = '\n' || c = '\r')

/-- Hexadecimal digit value. -/
def hexVal (c : Char) : Option Nat :=
  if '0' ≤ c ∧ c ≤ '9' then some (c.toNat - 48)
  else if 'a' ≤ c ∧ c ≤ 'f' then some (c.toNat - 97 + 10)
  else if 'A' ≤ c ∧ c ≤ 'F' then some (c.toNat - 65 + 10)
  else none

/-- Parse the body of a JSON string (after the opening quote), handling
escapes; lone surrogates are rejected, surrogate pairs are combined, and
unescaped control characters are rejected, as in `serde_json`.  `fuel`
bounds the recursion; any value larger than the input length suffices. -/
def parseJsonStr (fuel : Nat) (cs : List Char) : Option (List Char × List Char) :=
  match fuel with
  | 0 => none
  | fuel + 1 =>
    match cs with
    | [] => none
    | '"' :: r => some ([], r)
    | '\\' :: e :: r =>
      let simple : Option (Char × List Char) :=
        match e with
        | '"' => some ('"', r)
        | '\\' => some ('\\', r)
        | '/' => some ('/', r)
        | 'b' => some ('\x08', r)
        | 'f' => some ('\x0c', r)
        | 'n' => some ('\n', r)
        | 'r' => some ('\r', r)
        | 't' => some ('\t', r)
        | _ => none
      match simple with
      | some (c, r) =>
        (parseJsonStr fuel r).map (fun p => (c :: p.1, p.2))
      | none =>
        if e = 'u' then
          match r with
          | h1 :: h2 :: h3 :: h4 :: r2 => do
            let v1 ← hexVal h1
            let v2 ← hexVal h2
            let v3 ← hexVal h3
            let v4 ← hexVal h4
            let cp := v1 * 4096 + v2 * 256 + v3 * 16 + v4
            if 55296 ≤ cp ∧ cp ≤ 56319 then
              -- high surrogate: a low surrogate escape must follow
              match r2 with
              | '\\' :: 'u' :: k1 :: k2 :: k3 :: k4 :: r3 => do
                let w1 ← hexVal k1
                let w2 ← hexVal k2
                let w3 ← hexVal k3
                let w4 ← hexVal k4
                let cp2 := w1 * 4096 + w2 * 256 + w3 * 16 + w4
                if 56320 ≤ cp2 ∧ cp2 ≤ 57343 then
                  let c := Char.ofNat (65536 + (cp - 55296) * 1024 + (cp2 - 56320))
                  (parseJsonStr fuel r3).map (fun p => (c :: p.1, p.2))
                else none
              | _ => none
            else if 56320 ≤ cp ∧ cp ≤ 57343 then none
            else
              (parseJsonStr fuel r2).map (fun p => (Char.ofNat cp :: p.1, p.2))
          | _ => none
        else none
    | c :: r =>
      if c.toNat < 32 then none
      else (parseJsonStr fuel r).map (fun p => (c :: p.1, p.2))

/-- Parse a JSON number: optional minus, an integer part without leading
zeros, then optional fraction and exponent parts (whose presence makes the
number a float). -/
def parseJsonNum (cs : List Char) : Option (Json × List Char) := do
  let (neg, cs1) :=
    match cs with
    | '-' :: r => (true, r)
    | _ => (false, cs)
  let digits := cs1.takeWhile (fun c => c.isDigit)
  let rest1 := cs1.dropWhile (fun c => c.isDigit)
  if digits.isEmpty then none
  else if 2 ≤ digits.length ∧ digits.headD '0' = '0' then none
  else
    let mag : Nat := digits.foldl (fun a c => a * 10 + (c.toNat - 48)) 0
    let (hasFrac, rest2) ←
      match rest1 with
      | '.' :: r =>
        let fd := r.takeWhile (fun c => c.isDigit)
        if fd.isEmpty then none else some (true, r.dropWhile (fun c => c.isDigit))
      | _ => some (false, rest1)
    let (hasExp, rest3) ←
      match rest2 with
      | 'e' :: r | 'E' :: r =>
        let r' := match r with
          | '+' :: r2 => r2
          | '-' :: r2 => r2
          | _ => r
        let ed := r'.takeWhile (fun c => c.isDigit)
        if ed.isEmpty then none else some (true, r'.dropWhile (fun c => c.isDigit))
      | _ => some (false, rest2)
    let isInt := ¬hasFrac ∧ ¬hasExp
    some (Json.jnum isInt (if isInt then (if neg then -(mag : Int) else (mag : Int)) else 0), rest3)

mutual

/-- Parse one JSON value (leading whitespace allowed).  `depth` is
`serde_json`'s `remaining_depth` (128 at the top level): entering an array
or object decrements it, and reaching zero is a recursion-limit error. -/
def parseJsonVal (fuel depth : Nat) (cs : List Char) : Option (Json × List Char) :=
  match fuel with
  | 0 => none
  | fuel + 1 =>
    match skipWs cs with
    | 'n' :: 'u' :: 'l' :: 'l' :: r => some (Json.jnull, r)
    | 't' :: 'r' :: 'u' :: 'e' :: r => some (Json.jbool true, r)
    | 'f' :: 'a' :: 'l' :: 's' :: 'e' :: r => some (Json.jbool false, r)
    | '"' :: r => (parseJsonStr (r.length + 1) r).map (fun p => (Json.jstr p.1, p.2))
    | '[' :: r =>
      let d := depth - 1
      if d = 0 then none
      else
        (match skipWs r with
         | ']' :: r2 => some (Json.jarr [], r2)
         | _ => parseJsonArrItems fuel d (skipWs r) [])
    | '{' :: r =>
      let d := depth - 1
      if d = 0 then none
      else
        (match skipWs r with
         | '}' :: r2 => some (Json.jobj [], r2)
         | _ => parseJsonObjItems fuel d (skipWs r) [])
    | other => parseJsonNum other

/-- Parse the comma-separated items of a non-empty JSON array. -/
def parseJsonArrItems (fuel depth : Nat) (cs : List Char) (acc : List Json) :
    Option (Json × List Char) :=
  match fuel with
  | 0 => none
  | fuel + 1 => do
    let (v, r) ← parseJsonVal fuel depth cs
    match skipWs r with
    | ',' :: r2 => parseJsonArrItems fuel depth r2 (acc ++ [v])
    | ']' :: r2 => some (Json.jarr (acc ++ [v]), r2)
    | _ => none

/-- Parse the comma-separated members of a non-empty JSON object. -/
def parseJsonObjItems (fuel depth : Nat) (cs : List Char) (acc : List (List Char × Json)) :
    Option (Json × List Char) :=
  match fuel with
  | 0 => none
  | fuel + 1 =>
    match skipWs cs with
    | '"' :: r => do
      let (key, r1) ← parseJsonStr (r.length + 1) r
      match skipWs r1 with
      | ':' :: r2 => do
        let (v, r3) ← parseJsonVal fuel depth r2
        match skipWs r3 with
        | ',' :: r4 => parseJsonObjItems fuel depth r4 (acc ++ [(key, v)])
        | '}' :: r4 => some (Json.jobj (acc ++ [(key, v)]), r4)
        | _ => none
      | _ => none
    | _ => none

end

/-- Deserialize a JSON value into an `i32` field, as serde does: the value
must have been written as an integer and fit in `i32`. -/
def jsonAsI32 : Json → Option Int
  | Json.jnum true v => if -2147483648 ≤ v ∧ v ≤ 2147483647 then some v else none
  | _ => none

/-- Deserialize a JSON value into a `usize` (64-bit) field. -/
def jsonAsU64 : Json → Option Nat
  | Json.jnum true v => if 0 ≤ v ∧ v < 2 ^ 64 then some v.toNat else none
  | _ => none

/-- Deserialize a JSON value into a `String` field. -/
def jsonAsStr : Json → Option (List Char)
  | Json.jstr s => some s
  | _ => none

/-- Look up a field of a JSON object by name (first occurrence). -/
def jsonField (fields : List (List Char × Json)) (name : List Char) : Option Json :=
  (fields.find? (fun f => f.1 = name)).map (fun f => f.2)

/-- `serde_json` deserialization of the `Claims` struct, as the derived
deserializer behaves: a JSON object must carry each of the five fields
exactly once (a duplicated known field is a `duplicate field` error, while
unknown fields are ignored, duplicated or not); `deserialize_struct` also
accepts a JSON array positionally, with exactly one element per field in
declaration order.  Anything else is an error. -/
def claimsFromJson : Json → Option Claims
  | Json.jobj fields =>
    let keys : List (List Char) :=
      [['s', 'u', 'b'], ['o', 'r', 'g'], ['e', 'x', 'p'],
       ['s', 'u', 'i', 'd'], ['a', 'u', 'd']]
    if keys.all (fun k => fields.countP (fun f => f.1 == k) ≤ 1) then do
      let sub ← jsonField fields ['s', 'u', 'b'] >>= jsonAsI32
      let org ← jsonField fields ['o', 'r', 'g'] >>= jsonAsI32
      let exp ← jsonField fields ['e', 'x', 'p'] >>= jsonAsU64
      let suid ← jsonField fields ['s', 'u', 'i', 'd'] >>= jsonAsStr
      let aud ← jsonField fields ['a', 'u', 'd'] >>= jsonAsStr
      some ⟨sub, org, exp, String.mk suid, String.mk aud⟩
    else none
  | Json.jarr [jsub, jorg, jexp, jsuid, jaud] => do
    let sub ← jsonAsI32 jsub
    let org ← jsonAsI32 jorg
    let exp ← jsonAsU64 jexp
    let suid ← jsonAsStr jsuid
    let aud ← jsonAsStr jaud
    some ⟨sub, org, exp, String.mk suid, String.mk aud⟩
  | _ => none

/-- `serde_json::from_str::<Claims>`: parse one JSON value starting with
the default recursion budget of 128, require only whitespace after it,
and deserialize it into `Claims`. -/
def claimsFromStr (cs : List Char) : Option Claims :=
  match parseJsonVal (cs.length + 1) 128 cs with
  | some (v, rest) => if skipWs rest = [] then claimsFromJson v else none
  | none => none

/-- The complete payload pipeline shared by the two extraction functions:
re-pad the payload segment, base64url-decode it, decode the bytes as
UTF-8, and deserialize the claims JSON.  Each stage failing produces the
corresponding `MalformedToken`-kind error message of the source. -/
def decodePayload (seg : List Char) : Except String Claims :=
  match b64Decode (normalize_base64 seg) with
  | none => .error "Base64 decoding failed"
  | some bytes =>
    match utf8Decode bytes with
    | none => .error "Invalid UTF-8 in payload"
    | some cs =>
      match claimsFromStr cs with
      | none => .error "Failed to deserialize claims"
      | some claims => .ok claims

/-- `get_user_id_from_token` from `src/jwt/mod.rs`: split on `'.'`, require
exactly three segments, decode the payload segment and return the `sub`
claim.  No signature or expiry check is performed. -/
def get_user_id_from_token (token : List Char) : Except String Int :=
  let parts := splitSep '.' token
  if parts.length ≠ 3 then .error "Invalid token format"
  else
    match b64Decode (normalize_base64 (parts.getD 1 [])) with
    | none => .error "Base64 decoding failed"
    | some payload =>
      match utf8Decode payload with
      | none => .error "Invalid UTF-8 in payload"
      | some payload_str =>
        match claimsFromStr payload_str with
        | none => .error "Failed to deserialize claims"
        | some claims => .ok claims.sub

/-- `get_jwt_claims_from_token` from `src/jwt/mod.rs`: identical pipeline,
returning the whole claims record. -/
def get_jwt_claims_from_token (token : List Char) : Except String Claims :=
  let parts := splitSep '.' token
  if parts.length ≠ 3 then .error "Invalid token format"
  else
    match b64Decode (normalize_base64 (parts.getD 1 [])) with
    | none => .error "Base64 decoding failed"
    | some payload =>
      match utf8Decode payload with
      | none => .error "Invalid UTF-8 in payload"
      | some payload_str =>
        match claimsFromStr payload_str with
        | none => .error "Failed to deserialize claims"
        | some claims => .ok claims

/-- A compact token is syntactically well-formed when it has exactly three
dot-separated segments and its middle segment decodes through the whole
payload pipeline. -/
def tokenWellFormed (token : List Char) : Prop :=
  (splitSep '.' token).length = 3 ∧
    (decodePayload ((splitSep '.' token).getD 1 [])).isOk = true

/-! ## Password module

`Password::hash_password` / `Password::verify_password` wrap the `argon2`
and `bcrypt` crates.  The digest computations are embedded as ideal
injective functions of the inputs actually hashed (salt and plaintext);
hash-record strings are real character lists, serialized and re-parsed in
the formats the crates use.  The random salt drawn from `OsRng` is an
explicit parameter.  Because ideal digests embed the plaintext, the
`'$'` field separator is escaped out of them first. -/

/-- `PasswordHasherType` from `src/password/mod.rs`. -/
inductive PasswordHasherType where
  | Argon2
  | Bcrypt
deriving DecidableEq, Repr

/-- Escape a single character so that the result never contains `'$'`:
`'$'` becomes `"!D"` and the escape lead `'!'` becomes `"!!"`. -/
def escChar (c : Char) : List Char :=
  if c = '$' then ['!', 'D']
  else if c = '!' then ['!', '!']
  else [c]

/-- Escape a whole string; an injective, `'$'`-free encoding used to build
ideal digests that can live inside `'$'`-separated hash records. -/
def escDollar : List Char → List Char
  | [] => []
  | c :: rest => escChar c ++ escDollar rest

/-- Ideal Argon2 digest over the salt and the plaintext: collision-free by
construction, standing in for the real memory-hard digest. -/
def argon2IdealDigest (salt pwd : List Char) : List Char :=
  escDollar salt ++ '|' :: escDollar pwd

/-- Ideal bcrypt checksum over cost, salt and plaintext. -/
def bcryptIdealDigest (cost salt pwd : List Char) : List Char :=
  cost ++ '|' :: salt ++ '|' :: escDollar pwd

/-- A parsed PHC-format hash record (the fields `verify_password` uses). -/
structure PhcHash where
  alg : List Char
  salt : List Char
  digest : List Char
deriving DecidableEq, Repr

/-- Valid PHC algorithm identifier: 1–32 characters from `[a-z0-9-]`. -/
def phcIdentOk (s : List Char) : Bool :=
  1 ≤ s.length ∧ s.length ≤ 32 ∧ s.all (fun c => c.isLower || c.isDigit || c = '-')

/-- Characters of the PHC B64 salt alphabet. -/
def phcsaltCharOk (c : Char) : Bool :=
  c.isAlphanum || c = '+' || c = '/'

/-- Valid PHC salt field: 4–64 B64 characters. -/
def phcsaltOk (s : List Char) : Bool :=
  4 ≤ s.length ∧ s.length ≤ 64 ∧ s.all phcsaltCharOk

/-- A scoped model of `password_hash::PasswordHash::new`: it recognizes
the full `$alg$v=V$params$salt$digest` shape that this library's own
hashing emits, and rejects everything else.  The real parser's acceptance
set over arbitrary strings differs (it also admits partial shapes such as
salt-only or version-less records, and B64-validates the digest, which
ideal digests are not); no theorem below relies on where that full-domain
boundary lies — only on the records this library emits parsing back to
their fields, and on obviously malformed strings (no leading `$`) being
rejected, both of which agree with the crate. -/
def phcParse (s : List Char) : Option PhcHash :=
  match splitSep '$' s with
  | [first, alg, ver, params, salt, digest] =>
    if first.isEmpty ∧ phcIdentOk alg ∧
        (ver.take 2 = ['v', '='] ∧ 3 ≤ ver.length ∧ (ver.drop 2).all (fun c => c.isDigit)) ∧
        ¬params.isEmpty ∧ phcsaltOk salt ∧ ¬digest.isEmpty then
      some ⟨alg, salt, digest⟩
    else none
  | _ => none

/-- Serialize an Argon2 PHC record with the crate's default parameters
(`argon2id`, version 19, m=19456, t=2, p=1). -/
def phcSerializeArgon2 (salt digest : List Char) : List Char :=
  '$' :: ("argon2id".toList ++ '$' :: ("v=19".toList ++ '$' ::
    ("m=19456,t=2,p=1".toList ++ '$' :: (salt ++ '$' :: digest))))

/-- `Argon2::default().verify_password` on a parsed record: the record's
algorithm must be an Argon2 variant and the recomputed ideal digest must
equal the stored one.  All failure modes are collapsed to `false` by the
`.is_ok()` call in the source. -/
def argon2Check (rec : PhcHash) (password : List Char) : Bool :=
  (rec.alg = "argon2id".toList ∨ rec.alg = "argon2i".toList ∨ rec.alg = "argon2d".toList) ∧
    rec.digest = argon2IdealDigest rec.salt password

/-- A parsed bcrypt hash record. -/
structure BcryptHash where
  version : List Char
  cost : List Char
  salt : List Char
  checksum : List Char
deriving DecidableEq, Repr

/-- A scoped model of the bcrypt crate's hash parsing:
`$2x$cost$saltchecksum` with a known version tag, a numeric cost and a
22-character salt followed by the checksum.  The checksum length is left
open (the crate requires exactly 53 salt-plus-checksum characters, but
ideal checksums are not fixed-width) and the crate's cost-range and
salt-B64 error paths are not distinguished; no theorem below relies on
where the crate's full-domain `Err` boundary lies — only on this
library's own records parsing back to their fields. -/
def bcryptParse (s : List Char) : Option BcryptHash :=
  match splitSep '$' s with
  | [first, ver, cost, rest] =>
    if first.isEmpty ∧
        (ver = "2a".toList ∨ ver = "2b".toList ∨ ver = "2x".toList ∨ ver = "2y".toList) ∧
        (¬cost.isEmpty ∧ cost.all (fun c => c.isDigit)) ∧ 23 ≤ rest.length then
      some ⟨ver, cost, rest.take 22, rest.drop 22⟩
    else none
  | _ => none

/-- Serialize a bcrypt hash record. -/
def bcryptSerialize (cost salt checksum : List Char) : List Char :=
  '$' :: ("2b".toList ++ '$' :: (cost ++ '$' :: (salt ++ checksum)))

/-- `bcrypt::verify`: parse the stored record (malformed records are an
`Err`), recompute the checksum and compare. -/
def bcryptVerify (password hash : List Char) : Except (List Char) Bool :=
  match bcryptParse hash with
  | none => .error "Invalid hash".toList
  | some rec => .ok (rec.checksum = bcryptIdealDigest rec.cost rec.salt password)

/-- A valid bcrypt salt as produced by the crate from 16 `OsRng` bytes:
exactly 22 bcrypt-B64 characters. -/
def bcryptSaltOk (s : List Char) : Bool :=
  s.length = 22 ∧ s.all (fun c => c.isAlphanum || c = '.' || c = '/')

/-- `Password::hash_password` from `src/password/mod.rs`, with the random
salt (`SaltString::generate(&mut OsRng)` resp. the crate-internal 16-byte
salt) made an explicit parameter.  The underlying hashing call fails only
when handed an invalid salt, in which case the source maps the error to
its message. -/
def Password.hash_password (password : List Char) (t : PasswordHasherType)
    (salt : List Char) : Except (List Char) (List Char) :=
  match t with
  | PasswordHasherType.Argon2 =>
    if phcsaltOk salt then
      .ok (phcSerializeArgon2 salt (argon2IdealDigest salt password))
    else .error "salt invalid".toList
  | PasswordHasherType.Bcrypt =>
    if bcryptSaltOk salt then
      .ok (bcryptSerialize "12".toList salt (bcryptIdealDigest "12".toList salt password))
    else .error "salt invalid".toList

/-- `Password::verify_password` from `src/password/mod.rs`.  The Argon2
branch calls `PasswordHash::new(hash).unwrap()`, so a malformed record
aborts the process (outer `none`) and a well-formed one always yields
`Ok(bool)`; the Bcrypt branch never aborts and surfaces parse failures as
`Err`. -/
def Password.verify_password (hash : List Char) (password : List Char)
    (t : PasswordHasherType) : Option (Except (List Char) Bool) :=
  match t with
  | PasswordHasherType.Argon2 =>
    match phcParse hash with
    | none => none
    | some parsed => some (.ok (argon2Check parsed password))
  | PasswordHasherType.Bcrypt =>
    match bcryptVerify password hash with
    | .ok is_valid => some (.ok is_valid)
    | .error e => some (.error e)

/-- Hash a plaintext and then verify `verifyWith` against the produced
record, with the same family and salt. -/
def hashThenVerify (password verifyWith : List Char) (t : PasswordHasherType)
    (salt : List Char) : Except (List Char) (Option (Except (List Char) Bool)) :=
  (Password.hash_password password t salt).map
    (fun h => Password.verify_password h verifyWith t)

/-! ## `generate_strong_password`

The `rand` draws are an explicit oracle `g : Nat → Nat`: the k-th random
draw of the run is `g k`, reduced into the needed range the way the
uniform samplers do (an already-uniform index).  A `Alphanumeric` sample
is a character of the 62-character charset; `gen_range` over `n` values
is a draw modulo `n`; the final `shuffle` is the Fisher–Yates loop of
`rand::seq::SliceRandom`, one draw per step. -/

/-- The `rand` crate's `Alphanumeric` charset, in its source order. -/
def alnumCharset : List Char :=
  "ABCDEFGHIJKLMNOPQRSTUVWXYZabcdefghijklmnopqrstuvwxyz0123456789".toList

/-- One `Alphanumeric` sample from a raw draw. -/
def sampleAlnum (v : Nat) : Char := alnumCharset.getD (v % 62) 'A'

/-- Rust's `char::to_ascii_lowercase`. -/
def toAsciiLower (c : Char) : Char :=
  if 'A' ≤ c ∧ c ≤ 'Z' then Char.ofNat (c.toNat + 32) else c

/-- Rust's `char::to_ascii_uppercase`. -/
def toAsciiUpper (c : Char) : Char :=
  if 'a' ≤ c ∧ c ≤ 'z' then Char.ofNat (c.toNat - 32) else c

/-- `SPECIAL_CHARS` from `src/password/mod.rs` (27 characters). -/
def SPECIAL_CHARS : List Char :=
  "!@#$%^&*()_+\x7b\x7d[]:;<>,.?/|~`".toList

/-- The fill loop of `generate_strong_password`: each iteration draws a
choice among three groups and then one character of that group. -/
def genFill (g : Nat → Nat) (i : Nat) : Nat → List Char
  | 0 => []
  | count + 1 =>
    let choice := g i % 3
    let c :=
      if choice = 0 then toAsciiLower (sampleAlnum (g (i + 1)))
      else if choice = 1 then toAsciiUpper (sampleAlnum (g (i + 1)))
      else SPECIAL_CHARS.getD (g (i + 1) % SPECIAL_CHARS.length) ' '
    c :: genFill g (i + 2) count

/-- `Vec::swap i j`: read both positions, then write both. -/
def swapList (l : List Char) (i j : Nat) : List Char :=
  (l.set i (l.getD j ' ')).set j (l.getD i ' ')

/-- The Fisher–Yates loop of `SliceRandom::shuffle`, from position `i`
downwards: swap position `i` with a draw in `0..=i`. -/
def shuffleGo (g : Nat → Nat) : Nat → List Char → Nat → List Char
  | _, l, 0 => l
  | k, l, i + 1 => shuffleGo g (k + 1) (swapList l (i + 1) (g k % (i + 2))) i

/-- `SliceRandom::shuffle`, drawing from the oracle starting at index `k`. -/
def shuffle (g : Nat → Nat) (k : Nat) (l : List Char) : List Char :=
  shuffleGo g k l (l.length - 1)

/-- `generate_strong_password` from `src/password/mod.rs`: panics (outer
`none`) when `n < 4`; otherwise builds one forced character per group,
fills the remaining `n - 4` positions and shuffles.  Draw indices: 0–3 for
the four forced characters, two per fill iteration, then one per shuffle
step. -/
def generate_strong_password (n : Nat) (g : Nat → Nat) : Option (List Char) :=
  if n < 4 then none
  else
    let password : List Char :=
      [toAsciiLower (sampleAlnum (g 0)),
       toAsciiUpper (sampleAlnum (g 1)),
       Char.ofNat (48 + g 2 % 10),
       SPECIAL_CHARS.getD (g 3 % SPECIAL_CHARS.length) ' '] ++
        genFill g 4 (n - 4)
    some (shuffle g (4 + 2 * (n - 4)) password)

/-! ## Time module -/

/-- Rust's `str::parse::<i64>`: optional sign, at least one digit, nothing
else, overflow-checked. -/
def parseI64 (s : List Char) : Option Int :=
  let (neg, digits) :=
    match s with
    | '-' :: r => (true, r)
    | '+' :: r => (false, r)
    | _ => (false, s)
  if digits.isEmpty ∨ ¬digits.all (fun c => c.isDigit) then none
  else
    let mag : Nat := digits.foldl (fun a c => a * 10 + (c.toNat - 48)) 0
    let v : Int := if neg then -(mag : Int) else (mag : Int)
    if -(2 ^ 63 : Int) ≤ v ∧ v ≤ 2 ^ 63 - 1 then some v else none

/-- `Time::get_supported_timezones` from `src/time/mod.rs`. -/
def Time.get_supported_timezones : List String :=
  ["UTC-12:00", "UTC-11:00", "UTC-10:00", "UTC-09:30", "UTC-09:00",
   "UTC-08:00", "UTC-07:00", "UTC-06:00", "UTC-05:00", "UTC-04:30",
   "UTC-04:00", "UTC-03:30", "UTC-03:00", "UTC-02:00", "UTC-01:00",
   "UTC+00:00", "UTC+01:00", "UTC+02:00", "UTC+03:00", "UTC+03:30",
   "UTC+04:00", "UTC+04:30", "UTC+05:00", "UTC+05:30", "UTC+05:45",
   "UTC+06:00", "UTC+06:30", "UTC+07:00", "UTC+08:00", "UTC+08:30",
   "UTC+08:45", "UTC+09:00", "UTC+09:30", "UTC+10:00", "UTC+10:30",
   "UTC+11:00", "UTC+11:30", "UTC+12:00", "UTC+12:45", "UTC+13:00",
   "UTC+14:00"]

/-- Number of bytes of a character's UTF-8 encoding. -/
def utf8CharLen (c : Char) : Nat :=
  if c.toNat < 128 then 1
  else if c.toNat < 2048 then 2
  else if c.toNat < 65536 then 3
  else 4

/-- Rust's `str::len()`: the UTF-8 byte length of a string. -/
def utf8ByteLen (l : List Char) : Nat := (l.map utf8CharLen).sum

/-- A Rust byte-slice start: drop the first `n` bytes of a string, as
characters; `none` when `n` is past the end or not a character boundary
(where the slice operation panics). -/
def dropBytes : Nat → List Char → Option (List Char)
  | 0, l => some l
  | _ + 1, [] => none
  | n + 1, c :: rest =>
    if utf8CharLen c ≤ n + 1 then dropBytes (n + 1 - utf8CharLen c) rest
    else none

/-- `Time::convert_timezone` from `src/time/mod.rs`, on timestamps in
seconds: split the offset string on `':'`, require two segments, a first
segment of byte length six (Rust's `len()` counts bytes) and a `'+'` or
`'-'` as its fourth character (`chars().nth(3)`, an `Option`); then parse
the hour digits from the byte slice `[4..6]` of the first segment — a
slice that panics (outer `none`) when byte 4 is not a character boundary —
and the minute digits from the second segment, each with `unwrap_or(0)`,
and shift by the offset. -/
def Time.convert_timezone (utc_datetime : Int) (destination_timezone : String) :
    Option Int :=
  let offset_parts := splitSep ':' destination_timezone.data
  if offset_parts.length ≠ 2 then some utc_datetime
  else
    let p0 := offset_parts.getD 0 []
    if utf8ByteLen p0 ≠ 6 then some utc_datetime
    else
      let offset_sign := p0[3]?
      if offset_sign ≠ some '-' ∧ offset_sign ≠ some '+' then some utc_datetime
      else
        match dropBytes 4 p0 with
        | none => none
        | some hour_chars =>
          let hours_offset := (parseI64 hour_chars).getD 0
          let minutes_offset := (parseI64 (offset_parts.getD 1 [])).getD 0
          let total_offset_minutes := hours_offset * 60 + minutes_offset
          some (if offset_sign = some '-' then
              utc_datetime - total_offset_minutes * 60
            else utc_datetime + total_offset_minutes * 60)

/-! ## Theorems -/

/-- Auxiliary induction for the padding loop, on the number of characters
still to append. -/
theorem normalize_base64_aux :
    ∀ (n : Nat) (l : List Char), (4 - l.length % 4) % 4 = n →
      normalize_base64 l = l ++ List.replicate n '=' := by
  intro n
  induction n with
  | zero =>
    intro l h
    have h0 : l.length % 4 = 0 := by omega
    simp [normalize_base64, h0]
  | succ n ih =>
    intro l h
    have h0 : ¬ l.length % 4 = 0 := by omega
    have step : normalize_base64 l = normalize_base64 (l ++ ['=']) := by
      rw [normalize_base64]
      simp [h0]
    have hm : (4 - (l ++ ['=']).length % 4) % 4 = n := by
      simp [List.length_append]
      omega
    rw [step, ih _ hm, List.append_assoc]
    simp [List.replicate_succ]

/-- C9: `normalize_base64` appends `'='` until the length is a multiple of
four and changes nothing else: the output is the input followed by
`(4 - |s| mod 4) mod 4` padding characters, a transformation depending
only on the input's length. -/
theorem normalize_base64_padding_formula (s : List Char) :
    normalize_base64 s = s ++ List.replicate ((4 - s.length % 4) % 4) '=' :=
  normalize_base64_aux _ s rfl

/-- C10: `generate_jwt` never produces the `Err` variant of its declared
`Result`: whenever it returns at all (rather than aborting on the expiry
or signing `.expect` calls), the returned value is `Ok`. -/
theorem generate_jwt_never_err (user_id org_id : Int) (secret : String)
    (expires_in_sec : Int) (session_uuid audience : String) (now : Int) :
    (generate_jwt user_id org_id secret expires_in_sec session_uuid audience
        now).all (fun r => r.isOk) = true := by
  simp only [generate_jwt]
  split
  · rfl
  · rfl

/-- C1: validating a freshly issued token with the issuing secret and the
issuing audience succeeds and returns the subject, organization and
audience passed to issuance (clock reading `now ≥ 0`, positive ttl, expiry
within the representable range). -/
theorem jwt_issue_validate_roundtrip (sub org : Int) (secret : String)
    (ttl : Int) (suid aud : String) (now : Int) (hnow : 0 ≤ now)
    (httl : 0 < ttl) (hmax : now + ttl ≤ chronoMaxTs) :
    issueThenValidate sub org secret ttl suid aud aud now =
      some (.ok ⟨Header.default, ⟨sub, org, (now + ttl).toNat, suid, aud⟩⟩) := by
  have hmaxv : now + ttl ≤ 8210266876799 := by
    simpa [chronoMaxTs] using hmax
  have hA : ¬(now + ttl < chronoMinTs ∨ chronoMaxTs < now + ttl) := by
    simp only [chronoMinTs, chronoMaxTs]
    omega
  have hmod : (now + ttl) % (2 ^ 64 : Int) = now + ttl :=
    Int.emod_eq_of_lt (by omega) (by omega)
  have hexp : ¬((now + ttl).toNat < now.toNat - 60) := by omega
  simp only [issueThenValidate, generate_jwt, if_neg hA, hmod, validate_jwt,
    decodeJwt, encodeJwt, Validation.default, Validation.setAudience,
    Header.default]
  simp [hexp]

/-- C4: validating a freshly issued, unexpired token with the issuing
secret but a different audience fails with an `InvalidAudience` error. -/
theorem validate_jwt_audience_mismatch (sub org : Int) (secret : String)
    (ttl : Int) (suid aud aud2 : String) (now : Int) (hnow : 0 ≤ now)
    (httl : 0 < ttl) (hmax : now + ttl ≤ chronoMaxTs) (hne : aud2 ≠ aud) :
    issueThenValidate sub org secret ttl suid aud aud2 now =
      some (.error JwtErrorKind.InvalidAudience) := by
  have hmaxv : now + ttl ≤ 8210266876799 := by
    simpa [chronoMaxTs] using hmax
  have hA : ¬(now + ttl < chronoMinTs ∨ chronoMaxTs < now + ttl) := by
    simp only [chronoMinTs, chronoMaxTs]
    omega
  have hmod : (now + ttl) % (2 ^ 64 : Int) = now + ttl :=
    Int.emod_eq_of_lt (by omega) (by omega)
  have hexp : ¬((now + ttl).toNat < now.toNat - 60) := by omega
  have hne' : aud ≠ aud2 := fun h => hne h.symm
  simp only [issueThenValidate, generate_jwt, if_neg hA, hmod, validate_jwt,
    decodeJwt, encodeJwt, Validation.default, Validation.setAudience,
    Header.default]
  simp [hexp, hne']

/-- Witness for C1 at concrete inputs: subject 3, organization 5, a
one-hour ttl, issued at time 1000. -/
theorem jwt_issue_validate_roundtrip_witness :
    issueThenValidate 3 5 "topsecret" 3600 "session-1" "NEXTERA USER"
        "NEXTERA USER" 1000 =
      some (.ok ⟨Header.default, ⟨3, 5, 4600, "session-1", "NEXTERA USER"⟩⟩) := by
  have h := jwt_issue_validate_roundtrip 3 5 "topsecret" 3600 "session-1"
    "NEXTERA USER" 1000 (by decide) (by decide) (by decide)
  simpa using h

/-- Witness for C4 at concrete inputs: issued for audience
`"NEXTERA USER"`, validated against `"NEXTERA ADMIN"`. -/
theorem validate_jwt_audience_mismatch_witness :
    issueThenValidate 3 5 "topsecret" 3600 "session-1" "NEXTERA USER"
        "NEXTERA ADMIN" 1000 =
      some (.error JwtErrorKind.InvalidAudience) :=
  validate_jwt_audience_mismatch 3 5 "topsecret" 3600 "session-1"
    "NEXTERA USER" "NEXTERA ADMIN" 1000 (by decide) (by decide) (by decide)
    (by decide)

/-- The claims-extraction function is exactly: the three-segment check
followed by the payload pipeline on the middle segment. -/
theorem get_jwt_claims_eq (t : List Char) :
    get_jwt_claims_from_token t =
      if (splitSep '.' t).length = 3
      then decodePayload ((splitSep '.' t).getD 1 [])
      else .error "Invalid token format" := by
  simp only [get_jwt_claims_from_token, decodePayload]
  by_cases h : (splitSep '.' t).length = 3
  · simp [h]
  · simp [h]

/-- The subject-extraction function is the claims extraction followed by
the `sub` projection. -/
theorem get_user_id_eq_map (t : List Char) :
    get_user_id_from_token t = (get_jwt_claims_from_token t).map Claims.sub := by
  simp only [get_user_id_from_token, get_jwt_claims_from_token]
  by_cases h : (splitSep '.' t).length = 3
  · simp only [h, ne_eq, not_true_eq_false, if_false]
    rcases hb : b64Decode (normalize_base64 ((splitSep '.' t).getD 1 [])) with _ | payload
    · simp [hb, Except.map]
    · simp only [hb]
      rcases hu : utf8Decode payload with _ | payload_str
      · simp [hu, Except.map]
      · simp only [hu]
        rcases hc : claimsFromStr payload_str with _ | claims
        · simp [hc, Except.map]
        · simp [hc, Except.map]
  · simp [h, Except.map]

/-- Claims extraction succeeds exactly on syntactically well-formed
tokens. -/
theorem claims_ok_iff (t : List Char) :
    (∃ c, get_jwt_claims_from_token t = .ok c) ↔ tokenWellFormed t := by
  rw [get_jwt_claims_eq]
  unfold tokenWellFormed
  by_cases h : (splitSep '.' t).length = 3
  · simp only [h, if_true, true_and]
    rcases hd : decodePayload ((splitSep '.' t).getD 1 []) with e | c
    · simp [hd, Except.isOk, Except.toBool]
    · simp [hd, Except.isOk, Except.toBool]
  · simp [h]

/-- Claims extraction fails (with a `MalformedToken`-kind message) exactly
on tokens that are not syntactically well-formed. -/
theorem claims_error_iff (t : List Char) :
    (∃ e, get_jwt_claims_from_token t = .error e) ↔ ¬tokenWellFormed t := by
  rw [get_jwt_claims_eq]
  unfold tokenWellFormed
  by_cases h : (splitSep '.' t).length = 3
  · simp only [h, if_true, true_and]
    rcases hd : decodePayload ((splitSep '.' t).getD 1 []) with e | c
    · simp [hd, Except.isOk, Except.toBool]
    · simp [hd, Except.isOk, Except.toBool]
  · simp [h]

/-- C2: the two unverified extraction operations perform no signature or
expiry verification.  Their entire behaviour is the segment-count check
followed by the payload pipeline on the middle segment alone (so no other
part of the token — in particular not the signature — influences the
result); they succeed exactly on syntactically well-formed tokens and
return a `MalformedToken`-kind error exactly otherwise; and subject
extraction is claims extraction followed by the `sub` projection. -/
theorem token_extraction_no_verification (t : List Char) :
    (get_jwt_claims_from_token t =
       if (splitSep '.' t).length = 3
       then decodePayload ((splitSep '.' t).getD 1 [])
       else .error "Invalid token format") ∧
    (get_user_id_from_token t = (get_jwt_claims_from_token t).map Claims.sub) ∧
    ((∃ c, get_jwt_claims_from_token t = .ok c) ↔ tokenWellFormed t) ∧
    ((∃ e, get_jwt_claims_from_token t = .error e) ↔ ¬tokenWellFormed t) ∧
    ((∃ u, get_user_id_from_token t = .ok u) ↔ tokenWellFormed t) ∧
    ((∃ e, get_user_id_from_token t = .error e) ↔ ¬tokenWellFormed t) := by
  refine ⟨get_jwt_claims_eq t, get_user_id_eq_map t, claims_ok_iff t,
    claims_error_iff t, ?_, ?_⟩
  · rw [get_user_id_eq_map, ← claims_ok_iff t]
    rcases hX : get_jwt_claims_from_token t with e | c
    · simp [Except.map]
    · simp [Except.map]
  · rw [get_user_id_eq_map, ← claims_error_iff t]
    rcases hX : get_jwt_claims_from_token t with e | c
    · simp [Except.map]
    · simp [Except.map]

/-- C5 counterexample: on a structurally malformed hash record the Argon2
branch of `verify_password` does not return a `Result` — the `.unwrap()`
on the hash parse aborts the process (modelled by `none`), refuting the
claim that `verify_password` always returns rather than panicking. -/
theorem verify_password_argon2_aborts_on_malformed :
    Password.verify_password "not-a-hash".toList "password".toList
      PasswordHasherType.Argon2 = none := by
  rfl

/-- Splitting a separator-free string yields a single field. -/
theorem splitSep_eq_single (sep : Char) (l : List Char) (h : sep ∉ l) :
    splitSep sep l = [l] := by
  induction l with
  | nil => rfl
  | cons c rest ih =>
    have hc : ¬(c = sep) := by
      rintro rfl
      exact h (List.mem_cons_self _ _)
    have hr : sep ∉ rest := fun hm => h (List.mem_cons_of_mem _ hm)
    simp [splitSep, hc, ih hr]

/-- Splitting peels off a leading separator-free field. -/
theorem splitSep_append (sep : Char) (a b : List Char) (h : sep ∉ a) :
    splitSep sep (a ++ sep :: b) = a :: splitSep sep b := by
  induction a with
  | nil => simp [splitSep]
  | cons c rest ih =>
    have hc : ¬(c = sep) := by
      rintro rfl
      exact h (List.mem_cons_self _ _)
    have hr : sep ∉ rest := fun hm => h (List.mem_cons_of_mem _ hm)
    simp [splitSep, hc, ih hr]

/-- Escaped strings never contain the field separator. -/
theorem escDollar_no_dollar (l : List Char) : '$' ∉ escDollar l := by
  induction l with
  | nil => simp [escDollar]
  | cons c rest ih =>
    simp only [escDollar, List.mem_append]
    rintro (hm | hm)
    · by_cases h1 : c = '$'
      · simp [escChar, h1] at hm
      · by_cases h2 : c = '!'
        · simp [escChar, h1, h2] at hm
        · simp [escChar, h1, h2] at hm
          exact h1 hm.symm
    · exact ih hm

/-- The escape encoding is injective. -/
theorem escDollar_inj : ∀ a b : List Char, escDollar a = escDollar b → a = b := by
  intro a
  induction a with
  | nil =>
    intro b h
    cases b with
    | nil => rfl
    | cons c rest =>
      exfalso
      by_cases h1 : c = '$' <;> by_cases h2 : c = '!' <;>
        simp [escDollar, escChar, h1, h2] at h
  | cons c rest ih =>
    intro b h
    cases b with
    | nil =>
      exfalso
      by_cases h1 : c = '$' <;> by_cases h2 : c = '!' <;>
        simp [escDollar, escChar, h1, h2] at h
    | cons c2 rest2 =>
      simp only [escDollar] at h
      by_cases h1 : c = '$'
      · by_cases h2 : c2 = '$'
        · subst h1; subst h2
          simp [escChar] at h
          rw [ih rest2 h]
        · by_cases h4 : c2 = '!'
          · subst h1; subst h4
            simp [escChar] at h
          · subst h1
            simp [escChar, h2, h4] at h
            exact absurd h.1.symm h4
      · by_cases h3 : c = '!'
        · by_cases h2 : c2 = '$'
          · subst h3; subst h2
            simp [escChar] at h
          · by_cases h4 : c2 = '!'
            · subst h3; subst h4
              simp [escChar] at h
              rw [ih rest2 h]
            · subst h3
              simp [escChar, h2, h4] at h
              exact absurd h.1.symm h4
        · by_cases h2 : c2 = '$'
          · subst h2
            simp [escChar, h1, h3] at h
          · by_cases h4 : c2 = '!'
            · subst h4
              simp [escChar, h1, h3] at h
            · simp [escChar, h1, h2, h3, h4] at h
              rw [h.1, ih rest2 h.2]

/-- A valid PHC salt never contains the field separator. -/
theorem phcsaltOk_no_dollar (salt : List Char) (h : phcsaltOk salt = true) :
    '$' ∉ salt := by
  intro hm
  simp only [phcsaltOk, Bool.and_eq_true, decide_eq_true_eq, List.all_eq_true] at h
  have := h.2.2 '$' hm
  simp [phcsaltCharOk] at this

/-- A valid bcrypt salt never contains the field separator. -/
theorem bcryptSaltOk_no_dollar (salt : List Char) (h : bcryptSaltOk salt = true) :
    '$' ∉ salt := by
  intro hm
  simp only [bcryptSaltOk, Bool.and_eq_true, decide_eq_true_eq, List.all_eq_true] at h
  have := h.2 '$' hm
  simp at this

/-- Ideal Argon2 digests never contain the field separator. -/
theorem argon2IdealDigest_no_dollar (salt pwd : List Char) :
    '$' ∉ argon2IdealDigest salt pwd := by
  simp only [argon2IdealDigest, List.mem_append, List.mem_cons]
  rintro (hm | hm | hm)
  · exact escDollar_no_dollar salt hm
  · simp at hm
  · exact escDollar_no_dollar pwd hm

/-- Parsing an Argon2 record freshly serialized with a valid salt and an
ideal digest recovers its fields. -/
theorem phcParse_serialize (salt digest : List Char) (hs : phcsaltOk salt = true)
    (hd : '$' ∉ digest) (hne : digest ≠ []) :
    phcParse (phcSerializeArgon2 salt digest) =
      some ⟨"argon2id".toList, salt, digest⟩ := by
  have hsplit : splitSep '$' (phcSerializeArgon2 salt digest) =
      [[], "argon2id".toList, "v=19".toList, "m=19456,t=2,p=1".toList, salt, digest] := by
    unfold phcSerializeArgon2
    rw [show ('$' :: ("argon2id".toList ++ '$' :: ("v=19".toList ++ '$' ::
        ("m=19456,t=2,p=1".toList ++ '$' :: (salt ++ '$' :: digest))))) =
      ([] : List Char) ++ '$' :: ("argon2id".toList ++ '$' :: ("v=19".toList ++ '$' ::
        ("m=19456,t=2,p=1".toList ++ '$' :: (salt ++ '$' :: digest)))) from rfl]
    rw [splitSep_append '$' [] _ (by simp)]
    rw [splitSep_append '$' "argon2id".toList _ (by decide)]
    rw [splitSep_append '$' "v=19".toList _ (by decide)]
    rw [splitSep_append '$' "m=19456,t=2,p=1".toList _ (by decide)]
    rw [splitSep_append '$' salt _ (phcsaltOk_no_dollar salt hs)]
    rw [splitSep_eq_single '$' digest hd]
  unfold phcParse
  rw [hsplit]
  simp only [List.isEmpty_nil, hne]
  have hident : phcIdentOk "argon2id".toList = true := by decide
  simp [hident, hs, hne]
  decide

/-- Parsing a bcrypt record freshly serialized with a valid salt and a
non-empty ideal checksum recovers its fields. -/
theorem bcryptParse_serialize (salt checksum : List Char)
    (hs : bcryptSaltOk salt = true) (hd : '$' ∉ checksum) (hne : checksum ≠ []) :
    bcryptParse (bcryptSerialize "12".toList salt checksum) =
      some ⟨"2b".toList, "12".toList, salt, checksum⟩ := by
  have hlen : salt.length = 22 := by
    simp only [bcryptSaltOk, Bool.and_eq_true, decide_eq_true_eq] at hs
    exact hs.1
  have hsc : '$' ∉ salt ++ checksum := by
    simp only [List.mem_append]
    rintro (hm | hm)
    · exact bcryptSaltOk_no_dollar salt hs hm
    · exact hd hm
  have hsplit : splitSep '$' (bcryptSerialize "12".toList salt checksum) =
      [[], "2b".toList, "12".toList, salt ++ checksum] := by
    unfold bcryptSerialize
    rw [show ('$' :: ("2b".toList ++ '$' :: ("12".toList ++ '$' :: (salt ++ checksum)))) =
      ([] : List Char) ++ '$' :: ("2b".toList ++ '$' :: ("12".toList ++ '$' ::
        (salt ++ checksum))) from rfl]
    rw [splitSep_append '$' [] _ (by simp)]
    rw [splitSep_append '$' "2b".toList _ (by decide)]
    rw [splitSep_append '$' "12".toList _ (by decide)]
    rw [splitSep_eq_single '$' (salt ++ checksum) hsc]
  unfold bcryptParse
  rw [hsplit]
  have htake : (salt ++ checksum).take 22 = salt := by
    rw [← hlen]
    exact List.take_left salt checksum
  have hdrop : (salt ++ checksum).drop 22 = checksum := by
    rw [← hlen]
    exact List.drop_left salt checksum
  have hge : 23 ≤ salt.length + checksum.length := by
    rcases checksum with _ | ⟨c, cs⟩
    · exact absurd rfl hne
    · simp [hlen]
      omega
  simp [htake, hdrop, hge]

/-- For a fixed salt, ideal Argon2 digests determine the plaintext. -/
theorem argon2IdealDigest_inj (salt p p2 : List Char)
    (h : argon2IdealDigest salt p = argon2IdealDigest salt p2) : p = p2 := by
  unfold argon2IdealDigest at h
  have h2 := List.append_cancel_left h
  simp only [List.cons.injEq, true_and] at h2
  exact escDollar_inj p p2 h2

/-- For fixed cost and salt, ideal bcrypt checksums determine the
plaintext. -/
theorem bcryptIdealDigest_inj (cost salt p p2 : List Char)
    (h : bcryptIdealDigest cost salt p = bcryptIdealDigest cost salt p2) : p = p2 := by
  unfold bcryptIdealDigest at h
  have h2 := List.append_cancel_left h
  simp only [List.cons.injEq, true_and] at h2
  exact escDollar_inj p p2 h2

/-- Ideal bcrypt checksums over separator-free cost and salt never contain
the field separator. -/
theorem bcryptIdealDigest_no_dollar (cost salt pwd : List Char)
    (hc : '$' ∉ cost) (hs : '$' ∉ salt) :
    '$' ∉ bcryptIdealDigest cost salt pwd := by
  intro hm
  simp only [bcryptIdealDigest, List.mem_append, List.mem_cons] at hm
  rcases hm with (hm | hm | hm) | (hm | hm)
  · exact hc hm
  · simp at hm
  · exact hs hm
  · simp at hm
  · exact escDollar_no_dollar pwd hm

/-- C3: hash-then-verify round-trip for both hashing families, with
explicit (valid) random salts: verifying the hashing plaintext succeeds
with `Ok(true)`, and verifying any other plaintext returns `Ok(false)`. -/
theorem password_hash_verify_roundtrip (p p2 salt1 salt2 : List Char)
    (hs1 : phcsaltOk salt1 = true) (hs2 : bcryptSaltOk salt2 = true)
    (hne : p2 ≠ p) :
    hashThenVerify p p PasswordHasherType.Argon2 salt1 = .ok (some (.ok true)) ∧
    hashThenVerify p p2 PasswordHasherType.Argon2 salt1 = .ok (some (.ok false)) ∧
    hashThenVerify p p PasswordHasherType.Bcrypt salt2 = .ok (some (.ok true)) ∧
    hashThenVerify p p2 PasswordHasherType.Bcrypt salt2 = .ok (some (.ok false)) := by
  have hargnil : argon2IdealDigest salt1 p ≠ [] := by
    simp [argon2IdealDigest]
  have hbcnil : bcryptIdealDigest "12".toList salt2 p ≠ [] := by
    simp [bcryptIdealDigest]
  have hparse := phcParse_serialize salt1 (argon2IdealDigest salt1 p) hs1
    (argon2IdealDigest_no_dollar salt1 p) hargnil
  have hbparse := bcryptParse_serialize salt2 (bcryptIdealDigest "12".toList salt2 p)
    hs2 (bcryptIdealDigest_no_dollar "12".toList salt2 p (by decide)
      (bcryptSaltOk_no_dollar salt2 hs2)) hbcnil
  refine ⟨?_, ?_, ?_, ?_⟩
  · simp only [hashThenVerify, Password.hash_password, hs1, if_true, Except.map,
      Password.verify_password, hparse]
    simp [argon2Check]
  · simp only [hashThenVerify, Password.hash_password, hs1, if_true, Except.map,
      Password.verify_password, hparse]
    simp only [argon2Check, Option.some.injEq, Except.ok.injEq,
      decide_eq_false_iff_not]
    rintro ⟨-, hdig⟩
    exact hne ((argon2IdealDigest_inj salt1 p p2 hdig).symm)
  · simp only [hashThenVerify, Password.hash_password, hs2, if_true, Except.map,
      Password.verify_password, bcryptVerify, hbparse]
    simp
  · simp only [hashThenVerify, Password.hash_password, hs2, if_true, Except.map,
      Password.verify_password, bcryptVerify, hbparse]
    simp only [Option.some.injEq, Except.ok.injEq, decide_eq_false_iff_not]
    intro hdig
    exact hne ((bcryptIdealDigest_inj _ salt2 p p2 hdig).symm)

/-- Witness for C3 at concrete inputs: plaintexts `"password"` and
`"passwore"`, a 12-character Argon2 salt and a 22-character bcrypt salt. -/
theorem password_hash_verify_roundtrip_witness :
    hashThenVerify "password".toList "password".toList PasswordHasherType.Argon2
        "abcdefghijkl".toList = .ok (some (.ok true)) ∧
    hashThenVerify "password".toList "passwore".toList PasswordHasherType.Argon2
        "abcdefghijkl".toList = .ok (some (.ok false)) ∧
    hashThenVerify "password".toList "password".toList PasswordHasherType.Bcrypt
        "abcdefghijklmnopqrstuv".toList = .ok (some (.ok true)) ∧
    hashThenVerify "password".toList "passwore".toList PasswordHasherType.Bcrypt
        "abcdefghijklmnopqrstuv".toList = .ok (some (.ok false)) :=
  password_hash_verify_roundtrip "password".toList "passwore".toList
    "abcdefghijkl".toList "abcdefghijklmnopqrstuv".toList (by decide) (by decide)
    (by decide)

/-- C5 (amended): `verify_password` never throws on a legitimate
mismatch — the Argon2 branch never returns `Err` at all on any input (all
verification failures collapse to `Ok(false)` through `.is_ok()`), the
Bcrypt branch never aborts on any input, and on any record produced by
`hash_password` (either family, any valid salt) verifying any candidate
plaintext returns `Ok` of a boolean.  What fails is only "always returns
rather than panicking": the Argon2 branch aborts on a structurally
malformed record (the counterexample). -/
theorem verify_password_no_throw_on_mismatch (p pw salt1 salt2 : List Char)
    (hs1 : phcsaltOk salt1 = true) (hs2 : bcryptSaltOk salt2 = true) :
    (∀ h q e, Password.verify_password h q PasswordHasherType.Argon2 ≠
      some (.error e)) ∧
    (∀ h q, Password.verify_password h q PasswordHasherType.Bcrypt ≠ none) ∧
    (∃ b, hashThenVerify p pw PasswordHasherType.Argon2 salt1 =
      .ok (some (.ok b))) ∧
    (∃ b, hashThenVerify p pw PasswordHasherType.Bcrypt salt2 =
      .ok (some (.ok b))) := by
  refine ⟨?_, ?_, ?_, ?_⟩
  · intro h q e
    rcases hp : phcParse h with _ | rec
    · simp [Password.verify_password, hp]
    · simp [Password.verify_password, hp]
  · intro h q
    rcases hb : bcryptParse h with _ | rec
    · simp [Password.verify_password, bcryptVerify, hb]
    · simp [Password.verify_password, bcryptVerify, hb]
  · have hargnil : argon2IdealDigest salt1 p ≠ [] := by
      simp [argon2IdealDigest]
    have hparse := phcParse_serialize salt1 (argon2IdealDigest salt1 p) hs1
      (argon2IdealDigest_no_dollar salt1 p) hargnil
    refine ⟨argon2Check ⟨"argon2id".toList, salt1, argon2IdealDigest salt1 p⟩ pw, ?_⟩
    simp only [hashThenVerify, Password.hash_password, hs1, if_true, Except.map,
      Password.verify_password, hparse]
  · have hbcnil : bcryptIdealDigest "12".toList salt2 p ≠ [] := by
      simp [bcryptIdealDigest]
    have hbparse := bcryptParse_serialize salt2 (bcryptIdealDigest "12".toList salt2 p)
      hs2 (bcryptIdealDigest_no_dollar "12".toList salt2 p (by decide)
        (bcryptSaltOk_no_dollar salt2 hs2)) hbcnil
    refine ⟨decide ((bcryptIdealDigest "12".toList salt2 p) =
      bcryptIdealDigest "12".toList salt2 pw), ?_⟩
    simp only [hashThenVerify, Password.hash_password, hs2, if_true, Except.map,
      Password.verify_password, bcryptVerify, hbparse]

/-- Witness for the amended C5 at concrete inputs, discharging the salt
hypotheses with concrete valid salts. -/
theorem verify_password_no_throw_on_mismatch_witness :
    Password.verify_password "not-a-hash".toList "pw".toList
      PasswordHasherType.Bcrypt ≠ none :=
  (verify_password_no_throw_on_mismatch "password".toList "other".toList
    "abcdefghijkl".toList "abcdefghijklmnopqrstuv".toList (by decide)
    (by decide)).2.1 "not-a-hash".toList "pw".toList

/-- Replacing position `j` with `c` while prepending the old element at
position `j` is a permutation of prepending `c`. -/
theorem getD_set_perm : ∀ (t : List Char) (j : Nat) (c : Char), j < t.length →
    List.Perm (t.getD j ' ' :: t.set j c) (c :: t) := by
  intro t
  induction t with
  | nil =>
    intro j c h
    simp at h
  | cons x r ih =>
    intro j c h
    cases j with
    | zero =>
      simp only [List.getD_cons_zero, List.set_cons_zero]
      exact List.Perm.swap c x r
    | succ j =>
      simp only [List.getD_cons_succ, List.set_cons_succ]
      have h1 : List.Perm (r.getD j ' ' :: x :: r.set j c)
          (x :: r.getD j ' ' :: r.set j c) := List.Perm.swap x (r.getD j ' ') _
      have h2 : List.Perm (x :: r.getD j ' ' :: r.set j c) (x :: c :: r) :=
        (ih j c (by simpa using h)).cons x
      have h3 : List.Perm (x :: c :: r) (c :: x :: r) := List.Perm.swap c x r
      exact (h1.trans h2).trans h3

/-- `Vec::swap` with in-range indices permutes the list. -/
theorem swapList_perm : ∀ (l : List Char) (i j : Nat), i < l.length →
    j < l.length → List.Perm (swapList l i j) l := by
  intro l
  induction l with
  | nil =>
    intro i j hi hj
    simp at hi
  | cons c t ih =>
    intro i j hi hj
    match i, j with
    | 0, 0 =>
      simp [swapList]
    | 0, j + 1 =>
      simp only [swapList, List.getD_cons_zero, List.getD_cons_succ,
        List.set_cons_zero, List.set_cons_succ]
      exact getD_set_perm t j c (by simpa using hj)
    | i + 1, 0 =>
      simp only [swapList, List.getD_cons_zero, List.getD_cons_succ,
        List.set_cons_succ, List.set_cons_zero]
      exact getD_set_perm t i c (by simpa using hi)
    | i + 1, j + 1 =>
      simp only [swapList, List.getD_cons_succ, List.set_cons_succ]
      exact (ih i j (by simpa using hi) (by simpa using hj)).cons c

/-- The Fisher–Yates loop permutes the list. -/
theorem shuffleGo_perm (g : Nat → Nat) : ∀ (i k : Nat) (l : List Char),
    i < l.length → List.Perm (shuffleGo g k l i) l := by
  intro i
  induction i with
  | zero =>
    intro k l h
    exact List.Perm.refl l
  | succ i ih =>
    intro k l h
    have hj : g k % (i + 2) < l.length :=
      lt_of_lt_of_le (Nat.mod_lt _ (by omega)) (by omega)
    have hswap := swapList_perm l (i + 1) (g k % (i + 2)) h hj
    have hlen := hswap.length_eq
    exact (ih (k + 1) _ (by omega)).trans hswap

/-- `SliceRandom::shuffle` permutes the list. -/
theorem shuffle_perm (g : Nat → Nat) (k : Nat) (l : List Char) :
    List.Perm (shuffle g k l) l := by
  cases l with
  | nil => exact List.Perm.refl _
  | cons c t =>
    exact shuffleGo_perm g _ k (c :: t) (by simp)

/-- The fill loop produces exactly `count` characters. -/
theorem genFill_length (g : Nat → Nat) : ∀ (count i : Nat),
    (genFill g i count).length = count := by
  intro count
  induction count with
  | zero => intro i; rfl
  | succ count ih =>
    intro i
    simp [genFill, ih]

/-- C6: `generate_strong_password` returns a string of length exactly `n`
for every `n ≥ 4` and every outcome of the randomness source, and fails
fast (aborts rather than clamping) for every `n < 4`. -/
theorem generate_strong_password_length (n : Nat) (g : Nat → Nat) :
    (generate_strong_password n g).map List.length =
      if n < 4 then none else some n := by
  by_cases h : n < 4
  · simp [generate_strong_password, h]
  · simp only [generate_strong_password, h, if_false, Option.map_some']
    have hperm := shuffle_perm g (4 + 2 * (n - 4))
      ([toAsciiLower (sampleAlnum (g 0)),
        toAsciiUpper (sampleAlnum (g 1)),
        Char.ofNat (48 + g 2 % 10),
        SPECIAL_CHARS.getD (g 3 % SPECIAL_CHARS.length) ' '] ++
          genFill g 4 (n - 4))
    rw [hperm.length_eq]
    simp [genFill_length]
    omega

/-- C7 evaluation at a failing randomness outcome: when every raw draw is
52, both `Alphanumeric` samples used for the "lowercase" and "uppercase"
slots are the digit `'0'` (which `to_ascii_lowercase` / `to_ascii_uppercase`
leave unchanged), so the generated 4-character password `"2~00"` contains
no lowercase letter and no uppercase letter at all, contradicting the
guaranteed-complexity claim and the function's own documentation. -/
theorem generate_strong_password_missing_letter_classes :
    generate_strong_password 4 (fun _ => 52) = some ['2', '~', '0', '0'] ∧
    ∀ c ∈ ['2', '~', '0', '0'],
      ¬(('a' ≤ c ∧ c ≤ 'z') ∨ ('A' ≤ c ∧ c ≤ 'Z')) := by
  constructor
  · rfl
  · decide

/-- C8 counterexample: `"UTC+xx:30"` has a non-numeric hour component and
is not in the supported-offset table, yet `convert_timezone` does not
return the timestamp unchanged — `unwrap_or(0)` turns the failed hour
parse into 0 and the minute component still shifts the result by 30
minutes (1800 seconds). -/
theorem convert_timezone_nonnumeric_hour_still_converts :
    Time.convert_timezone 0 "UTC+xx:30" = some 1800 ∧
    (1800 : Int) ≠ 0 ∧
    "UTC+xx:30" ∉ Time.get_supported_timezones := by
  refine ⟨rfl, by decide, by decide⟩

/-- C8 (amended): `convert_timezone` returns the timestamp unchanged when
the offset string fails the structural checks — wrong number of
`':'`-separated segments, first segment not six bytes long, or the fourth
character of the first segment not a `'+'`/`'-'` sign.  (Offset strings
passing these checks are not no-ops: they are converted even when outside
the supported table, non-numeric hour/minute components are parsed as 0 by
`unwrap_or(0)`, and when byte 4 of the first segment is not a character
boundary the hour byte-slice panics.) -/
theorem convert_timezone_malformed_unchanged (t : Int) (s : String)
    (h : (splitSep ':' s.data).length ≠ 2 ∨
         utf8ByteLen ((splitSep ':' s.data).getD 0 []) ≠ 6 ∨
         (((splitSep ':' s.data).getD 0 [])[3]? ≠ some '-' ∧
          ((splitSep ':' s.data).getD 0 [])[3]? ≠ some '+')) :
    Time.convert_timezone t s = some t := by
  unfold Time.convert_timezone
  rcases h with h | h | h
  · simp [h]
  · by_cases hl : (splitSep ':' s.data).length ≠ 2
    · simp [hl]
    · simp only [hl, if_false]
      rw [if_pos h]
  · by_cases hl : (splitSep ':' s.data).length ≠ 2
    · simp [hl]
    · simp only [hl, if_false]
      by_cases h6 : utf8ByteLen ((splitSep ':' s.data).getD 0 []) ≠ 6
      · rw [if_pos h6]
      · rw [if_neg h6, if_pos h]

/-- Witness for the amended C8 at a concrete input: `"garbage"` has a
single `':'`-segment, so conversion leaves the timestamp 5 unchanged. -/
theorem convert_timezone_malformed_unchanged_witness :
    Time.convert_timezone 5 "garbage" = some 5 :=
  convert_timezone_malformed_unchanged 5 "garbage" (Or.inl (by decide))
